import Mathlib

/-!
Verification of the finance-tracker expense core: a shallow embedding of
the utility functions in src/utils/expenseUtils.js and of the reports
aggregation pipeline (filtering, category sums, monthly sums, top
category, percentage breakdown, CSV export rows, category-list merging),
together with theorems checking the documented behaviour.

Modelling conventions:
- JavaScript numbers carrying currency amounts are modelled as rationals.
- A JavaScript object field that may be absent is an Option field; a
  function argument that may be a non-array value (null, undefined) is an
  Option of a list, with none standing for every non-array input.
- A calendar date string is parsed into a YMD triple; an Invalid Date and
  every comparison against it is modelled by Option YMD with none, whose
  comparisons are false, matching NaN timestamp comparisons.
- Object key iteration order for the string keys used here (category
  names, month labels) is insertion order, modelled by association lists
  that append unseen keys at the end.
- Array.prototype.sort with a comparator is modelled by insertion sort
  over the corresponding relation; it produces a permutation, and for the
  total key orders used on chart labels the sorted result is the same
  list a JavaScript engine produces.
-/

/-- Calendar date as year, month, day numbers, the content of an ISO
yyyy-MM-dd string. -/
structure YMD where
  y : Nat
  m : Nat
  d : Nat
  deriving DecidableEq, Repr

/-- Timeline order on calendar dates: lexicographic on year, month, day.
Comparing two valid JavaScript Date values compares their timestamps,
which for dates at midnight agrees with this order. -/
def ymdLe (a b : YMD) : Prop :=
  a.y < b.y ∨ (a.y = b.y ∧ (a.m < b.m ∨ (a.m = b.m ∧ a.d ≤ b.d)))

instance : DecidableRel ymdLe := fun a b => by
  unfold ymdLe
  infer_instance

/-- Gregorian leap-year test. -/
def isLeap (y : Nat) : Bool :=
  (y % 4 == 0 && y % 100 != 0) || y % 400 == 0

/-- Number of days of a month, as JavaScript date handling (and the
endOfMonth helper of the date library) computes it. -/
def daysInMonth (y m : Nat) : Nat :=
  if m = 2 then (if isLeap y then 29 else 28)
  else if m = 4 ∨ m = 6 ∨ m = 9 ∨ m = 11 then 30
  else 31

/-- Character of one decimal digit. -/
def digitChar (n : Nat) : Char :=
  match n with
  | 0 => '0' | 1 => '1' | 2 => '2' | 3 => '3' | 4 => '4'
  | 5 => '5' | 6 => '6' | 7 => '7' | 8 => '8' | _ => '9'

/-- Numeric value of a digit character. -/
def digitVal (c : Char) : Nat := c.toNat - 48

/-- Two-digit zero-padded rendering, as the date format MM or dd. -/
def pad2 (n : Nat) : List Char := [digitChar (n / 10 % 10), digitChar (n % 10)]

/-- Four-digit zero-padded rendering, as the date format yyyy. -/
def pad4 (n : Nat) : List Char :=
  [digitChar (n / 1000 % 10), digitChar (n / 100 % 10),
   digitChar (n / 10 % 10), digitChar (n % 10)]

/-- Rendering of a date in the ISO shape yyyy-MM-dd, the format used for
stored date strings and for the today comparison string. -/
def formatYMD (x : YMD) : String :=
  String.mk (pad4 x.y ++ '-' :: pad2 x.m ++ '-' :: pad2 x.d)

/-- Parser core over the character list of a candidate ISO date string:
exactly ten characters, digits and hyphens in place, month and day in
calendar range. A string rejected here models one that JavaScript date
parsing turns into an Invalid Date. -/
def parseYMDList : List Char → Option YMD
  | [y1, y2, y3, y4, h1, m1, m2, h2, d1, d2] =>
    if y1.isDigit && y2.isDigit && y3.isDigit && y4.isDigit && h1 == '-'
        && m1.isDigit && m2.isDigit && h2 == '-' && d1.isDigit && d2.isDigit then
      let y := 1000 * digitVal y1 + 100 * digitVal y2 + 10 * digitVal y3 + digitVal y4
      let m := 10 * digitVal m1 + digitVal m2
      let d := 10 * digitVal d1 + digitVal d2
      if 1 ≤ m && m ≤ 12 && 1 ≤ d && d ≤ daysInMonth y m then some ⟨y, m, d⟩ else none
    else none
  | _ => none

/-- Parsing of an ISO date string into a calendar date. -/
def parseYMD (s : String) : Option YMD := parseYMDList s.data

/-- Parsing of a possibly absent date field: a missing field and an
unparsable string both give none, the model of an Invalid Date. -/
def parseDate (date : Option String) : Option YMD :=
  match date with
  | none => none
  | some s => parseYMD s

/-- Date whose fields are a real calendar date representable in the
four-digit year format. -/
def ValidYMD (x : YMD) : Prop :=
  x.y ≤ 9999 ∧ 1 ≤ x.m ∧ x.m ≤ 12 ∧ 1 ≤ x.d ∧ x.d ≤ daysInMonth x.y x.m

instance (x : YMD) : Decidable (ValidYMD x) := by
  unfold ValidYMD
  infer_instance

/-- Rata-die style day count of a calendar date (days-from-civil
formula), the model of a millisecond timestamp divided into whole days;
used for the cutoff arithmetic of getExpensesForLastDays. -/
def toRataDie (x : YMD) : Int :=
  let y : Int := if x.m ≤ 2 then (x.y : Int) - 1 else (x.y : Int)
  let era : Int := Int.ediv y 400
  let yoe : Int := y - era * 400
  let mp : Int := Int.emod ((x.m : Int) + 9) 12
  let doy : Int := Int.ediv (153 * mp + 2) 5 + (x.d : Int) - 1
  let doe : Int := yoe * 365 + Int.ediv yoe 4 - Int.ediv yoe 100 + doy
  era * 146097 + doe

/-- Expense object exactly as the utility functions of expenseUtils.js
receive it: every field may be absent. -/
structure JsExpense where
  title : Option String := none
  amount : Option Rat := none
  category : Option String := none
  date : Option String := none
  deriving DecidableEq, Repr

/-- Model of the JavaScript expression amount or-else 0: an absent
amount contributes 0 (an amount of 0 is falsy in JavaScript, and the
or-else also gives 0 there, so the value agrees). -/
def jsOr0 (a : Option Rat) : Rat :=
  match a with
  | none => 0
  | some q => q

/-- Model of JavaScript string truthiness for an optional field: absent
and empty strings are falsy. -/
def jsTruthyStr (s : Option String) : Bool :=
  match s with
  | none => false
  | some t => !(t == "")

/-- Model of String.prototype.startsWith within s translated to the
character list: the candidate is an initial segment. -/
def jsStartsWith (s pre2 : String) : Bool :=
  decide (s.data.take pre2.data.length = pre2.data)

/-- getTotalExpenses from expenseUtils.js: 0 for a non-array input, else
the reduce of amount or-else 0. -/
def getTotalExpenses (expenses : Option (List JsExpense)) : Rat :=
  match expenses with
  | none => 0
  | some l => l.foldl (fun total e => total + jsOr0 e.amount) 0

/-- getTotalByCategory from expenseUtils.js: 0 for a non-array input,
else the filtered reduce over records whose category field equals the
argument under strict equality (an Option String argument also covers a
call with an undefined category). -/
def getTotalByCategory (expenses : Option (List JsExpense)) (category : Option String) : Rat :=
  match expenses with
  | none => 0
  | some l =>
    (l.filter (fun e => decide (e.category = category))).foldl
      (fun total e => total + jsOr0 e.amount) 0

/-- getTotalByMonth from expenseUtils.js: 0 for a non-array input, else
the filtered reduce over records with a truthy date starting with the
month string. -/
def getTotalByMonth (expenses : Option (List JsExpense)) (month : String) : Rat :=
  match expenses with
  | none => 0
  | some l =>
    (l.filter (fun e => jsTruthyStr e.date && jsStartsWith (e.date.getD "") month)).foldl
      (fun total e => total + jsOr0 e.amount) 0

/-- Comparator relation of sortExpensesByDate: newest first by parsed
date; a comparison involving an Invalid Date returns NaN, which the sort
treats as equal, modelled as true (keep relative order). -/
def sortExpensesByDateRel (a b : JsExpense) : Bool :=
  match parseDate a.date, parseDate b.date with
  | some da, some db => decide (ymdLe db da)
  | _, _ => true

/-- sortExpensesByDate from expenseUtils.js: empty list for a non-array
input, else a sorted copy (newest first). -/
def sortExpensesByDate (expenses : Option (List JsExpense)) : List JsExpense :=
  match expenses with
  | none => []
  | some l => List.insertionSort (fun a b => sortExpensesByDateRel a b = true) l

/-- getExpensesForLastDays from expenseUtils.js: empty list for a
non-array input, else the records whose parsed date is on or after the
clock reading minus the requested number of days; a record whose date
does not parse compares as NaN and is dropped. The ambient clock is an
explicit now argument. -/
def getExpensesForLastDays (now : YMD) (expenses : Option (List JsExpense)) (days : Nat) : List JsExpense :=
  match expenses with
  | none => []
  | some l =>
    l.filter (fun e =>
      match parseDate e.date with
      | some x => decide (toRataDie now - (days : Int) ≤ toRataDie x)
      | none => false)

/-- Result object of validateExpense. -/
structure ValidationResult where
  isValid : Bool
  error : Option String := none
  deriving DecidableEq, Repr

/-- validateExpense from expenseUtils.js: a falsy or whitespace-only
title fails with the title message; then a non-number or non-positive
amount fails with the amount message; otherwise the input is valid. -/
def validateExpense (e : JsExpense) : ValidationResult :=
  match e.title with
  | none => ⟨false, some "Title is required"⟩
  | some t =>
    if t.trim = "" then ⟨false, some "Title is required"⟩
    else
      match e.amount with
      | none => ⟨false, some "Amount must be positive"⟩
      | some a => if a ≤ 0 then ⟨false, some "Amount must be positive"⟩ else ⟨true, none⟩

/-- Expense record as the Reports and Dashboard components receive it
from the store after validated creation: title, amount and category are
present; the date field may still be absent or malformed. -/
structure RExpense where
  title : String
  amount : Rat
  category : String
  date : Option String := none
  deriving DecidableEq, Repr

/-- Association-list update modelling the object write pattern
if map of key is truthy then add the value else assign it: an existing
key keeps its position with the value added (assigning over a falsy 0 is
numerically the same as adding), a new key is appended, matching string
key insertion order. -/
def addTo {κ : Type} [DecidableEq κ] : List (κ × Rat) → κ → Rat → List (κ × Rat)
  | [], key, val => [(key, val)]
  | (c, x) :: rest, key, val =>
    if c = key then (c, x + val) :: rest else (c, x) :: addTo rest key val

/-- Accumulation of a keyed sum map over a list, the model of the
category and month object maps the components build. -/
def sumByKey {α κ : Type} [DecidableEq κ] (k : α → κ) (v : α → Rat) (l : List α) : List (κ × Rat) :=
  l.foldl (fun m a => addTo m (k a) (v a)) []

/-- Keys of a list in first-encounter order, the Object.keys order of a
string-keyed object filled by the same loop. -/
def keyOrder {α κ : Type} [DecidableEq κ] (k : α → κ) (l : List α) : List κ :=
  l.foldl (fun ks a => if k a ∈ ks then ks else ks ++ [k a]) []

/-- Sum of a value over the members of a list carrying a given key. -/
def fiberSum {α κ : Type} [DecidableEq κ] (k : α → κ) (v : α → Rat) (l : List α) (c : κ) : Rat :=
  ((l.filter (fun a => decide (k a = c))).map v).sum

/-- Lookup of the value stored under a key, 0 when absent (the loops
only look up keys they stored). -/
def valOf {κ : Type} [DecidableEq κ] (m : List (κ × Rat)) (c : κ) : Rat :=
  match m.find? (fun p => decide (p.1 = c)) with
  | some p => p.2
  | none => 0

/-- Date-filter selection of the Reports page. The source switches on a
string and falls through to the identity default for the all value. -/
inductive DateFilter
  | all | today | thisMonth | lastMonth | thisYear | lastYear | custom
  deriving DecidableEq, Repr

/-- Year and month holding the month before the given clock reading, the
use the source makes of subMonths followed by startOfMonth, endOfMonth. -/
def prevMonth (now : YMD) : Nat × Nat :=
  if now.m = 1 then (now.y - 1, 12) else (now.y, now.m - 1)

/-- Inclusive range test of a parsed date against two calendar bounds; a
missing or unparsable date is an Invalid Date whose NaN comparisons are
false, so it never passes. -/
def inYMDRange (p : Option YMD) (lo hi : YMD) : Bool :=
  match p with
  | some x => decide (ymdLe lo x) && decide (ymdLe x hi)
  | none => false

/-- Switch body of filterExpenses in the Reports component: one branch
per date range, with the custom branch comparing against the parsed
custom bounds (false whenever any of the three parses fails). -/
def filterPick (now : YMD) (dateFilter : DateFilter) (customStart customEnd : String)
    (expenses : List RExpense) : List RExpense :=
  match dateFilter with
  | .today => expenses.filter (fun e => decide (e.date = some (formatYMD now)))
  | .thisMonth =>
    expenses.filter (fun e =>
      inYMDRange (parseDate e.date) ⟨now.y, now.m, 1⟩ ⟨now.y, now.m, daysInMonth now.y now.m⟩)
  | .lastMonth =>
    expenses.filter (fun e =>
      inYMDRange (parseDate e.date) ⟨(prevMonth now).1, (prevMonth now).2, 1⟩
        ⟨(prevMonth now).1, (prevMonth now).2, daysInMonth (prevMonth now).1 (prevMonth now).2⟩)
  | .thisYear =>
    expenses.filter (fun e => inYMDRange (parseDate e.date) ⟨now.y, 1, 1⟩ ⟨now.y, 12, 31⟩)
  | .lastYear =>
    expenses.filter (fun e => inYMDRange (parseDate e.date) ⟨now.y - 1, 1, 1⟩ ⟨now.y - 1, 12, 31⟩)
  | .custom =>
    expenses.filter (fun e =>
      match parseDate e.date, parseYMD customStart, parseYMD customEnd with
      | some x, some lo, some hi => decide (ymdLe lo x) && decide (ymdLe x hi)
      | _, _, _ => false)
  | .all => expenses

/-- Comparator relation of the final sort of filterExpenses: most recent
date first when both records carry a date, equal (order kept) otherwise. -/
def reportOrder (a b : RExpense) : Bool :=
  match parseDate a.date, parseDate b.date with
  | some da, some db => decide (ymdLe db da)
  | _, _ => true

/-- filterExpenses of the Reports component: the range selection
followed by the most-recent-first sort. The ambient clock is an explicit
now argument. -/
def filterExpenses (now : YMD) (dateFilter : DateFilter) (customStart customEnd : String)
    (expenses : List RExpense) : List RExpense :=
  List.insertionSort (fun a b => reportOrder a b = true)
    (filterPick now dateFilter customStart customEnd expenses)

/-- getCategoryData of the Reports component, as the association list of
category sums in insertion order; labels are the first components and
the dataset values the second components. -/
def getCategoryData (rs : List RExpense) : List (String × Rat) :=
  sumByKey (fun e => e.category) (fun e => e.amount) rs

/-- totalAmount of the Reports component: the reduce of amount over the
filtered records. -/
def totalAmount (rs : List RExpense) : Rat :=
  rs.foldl (fun s e => s + e.amount) 0

/-- Category breakdown lines of generatePDF: for every category data
entry, its amount together with the percentage expression
if total positive then amount over total times 100 else 0. -/
def generatePDFCategoryBreakdown (rs : List RExpense) : List (String × Rat × Rat) :=
  (getCategoryData rs).map (fun p =>
    (p.1, p.2, if 0 < totalAmount rs then p.2 / totalAmount rs * 100 else 0))

/-- getTopCategory of the Reports component: the loop over the category
sum entries keeping the entry whose amount strictly exceeds the running
maximum, starting from the null category and amount 0. -/
def getTopCategory (rs : List RExpense) : Option String × Rat :=
  (getCategoryData rs).foldl
    (fun acc p => if acc.2 < p.2 then (some p.1, p.2) else acc)
    ((none : Option String), (0 : Rat))

/-- Month key of a record: year and month of its parsed date, the
content of the month label the components build and later reparse for
sorting; none when the date does not parse (the Dashboard loop guards
with isNaN and skips such records). -/
def monthOf (e : RExpense) : Option (Nat × Nat) :=
  (parseDate e.date).map (fun x => (x.y, x.m))

/-- Keyed month and amount pairs of the records with a parsable date. -/
def monthEntries (rs : List RExpense) : List ((Nat × Nat) × Rat) :=
  rs.filterMap (fun e => (monthOf e).map (fun ym => (ym, e.amount)))

/-- Calendar order on month keys, the order of the reparsed month labels
the sort comparator subtracts. -/
def ymLe (a b : Nat × Nat) : Prop :=
  a.1 < b.1 ∨ (a.1 = b.1 ∧ a.2 ≤ b.2)

instance : DecidableRel ymLe := fun a b => by
  unfold ymLe
  infer_instance

/-- getMonthlyData of the Dashboard component: the month sum map over
records with a parsable date, its keys sorted chronologically, and the
data values looked up per sorted key, label and value matched
index-for-index. -/
def getMonthlyData (rs : List RExpense) : List (Nat × Nat) × List Rat :=
  let mm := sumByKey Prod.fst Prod.snd (monthEntries rs)
  let sortedMonths := List.insertionSort (fun a b => ymLe a b) (mm.map Prod.fst)
  (sortedMonths, sortedMonths.map (fun c => valOf mm c))

/-- Count of whole digits rendering of a natural number, most
significant first. -/
def natDigits (n : Nat) : List Char :=
  if _h : n < 10 then [digitChar n]
  else natDigits (n / 10) ++ [digitChar (n % 10)]
  termination_by n
  decreasing_by exact Nat.div_lt_self (by omega) (by omega)

/-- Digit part of toFixed with two decimals for a non-negative value:
the integer nearest to 100 times the value (ties toward the larger, the
ECMAScript choice), rendered with two decimal places. -/
def fixed2Digits (q : Rat) : List Char :=
  let n : Nat := (⌊q * 100 + 1 / 2⌋).toNat
  natDigits (n / 100) ++ '.' :: pad2 (n % 100)

/-- Model of Number.prototype.toFixed with two decimals: sign first,
then the rounded magnitude with exactly two digits after the point. -/
def toFixed2 (q : Rat) : String :=
  if q < 0 then String.mk ('-' :: fixed2Digits (-q)) else String.mk (fixed2Digits q)

/-- Field list of one CSV row of exportToCSV: the reformatted date, the
category, the title wrapped in double quotes, and the amount through
toFixed with two decimals. -/
def csvFields (e : RExpense) : List String :=
  [formatYMD ((parseDate e.date).getD ⟨0, 0, 0⟩), e.category,
   String.mk ('"' :: e.title.data ++ ['"']), toFixed2 e.amount]

/-- exportToCSV of the Reports component, as the list of rows, one per
filtered record in order. -/
def exportToCSV (rs : List RExpense) : List (List String) :=
  rs.map csvFields

/-- Joined text of the CSV export: the header row then one joined line
per record, newline separated, what the component hands the blob sink. -/
def csvContent (rs : List RExpense) : String :=
  String.intercalate "\n"
    (String.intercalate "," ["Date", "Category", "Title", "Amount"] ::
      (exportToCSV rs).map (fun row => String.intercalate "," row))

/-- Category entry as the category components carry it; the icon field
of the source is dropped as presentation-only. -/
structure Category where
  id : String
  name : String
  deriving DecidableEq, Repr

/-- Default category list shared by the form, dashboard and categories
page. -/
def defaultCategories : List Category :=
  [⟨"food", "Food"⟩, ⟨"transport", "Transport"⟩, ⟨"entertainment", "Entertainment"⟩,
   ⟨"utilities", "Utilities"⟩, ⟨"rent", "Rent"⟩, ⟨"other", "Other"⟩]

/-- allCategories of the ExpenseForm component: defaults then the custom
categories whose name collides with no default name. -/
def expenseFormAllCategories (customCategories : List Category) : List Category :=
  defaultCategories ++
    customCategories.filter (fun cat =>
      !(defaultCategories.any (fun dc => decide (dc.name = cat.name))))

/-- allCategories of the DashboardOverview component: defaults then all
custom categories, no collision handling. -/
def dashboardAllCategories (categories : List Category) : List Category :=
  defaultCategories ++ categories

/-- allCategories of the Categories page component: defaults then all
custom categories, no collision handling. -/
def categoriesPageAllCategories (categories : List Category) : List Category :=
  defaultCategories ++ categories

/-- Distinct category values present in a record list, in first
encounter order; an absent category is the undefined value. -/
def catsPresent (rs : List JsExpense) : List (Option String) :=
  keyOrder (fun e => e.category) rs

/-- Month prefix of a date string: its first seven characters, the
yyyy-MM part of a well-formed date. -/
def monthKey (s : String) : String :=
  String.mk (s.data.take 7)

/-- Distinct month prefixes present among the date strings of a record
list, in first encounter order. -/
def monthsPresent (rs : List JsExpense) : List String :=
  keyOrder monthKey (rs.filterMap (fun e => e.date))

/-- Distinct categories of the report records in first encounter order. -/
def catsInOrder (rs : List RExpense) : List String :=
  keyOrder (fun e => e.category) rs

/-- Summed amount of one category over the report records. -/
def catFiber (rs : List RExpense) (c : String) : Rat :=
  fiberSum (fun e => e.category) (fun e => e.amount) rs c

/-- Sample report records used to exercise the theorems on concrete
input. -/
def sampleReportRecords : List RExpense :=
  [⟨"Lunch", 5, "Food", some "2024-01-15"⟩, ⟨"Taxi", 3, "Transport", some "2024-01-16"⟩]

/-- Sample clock reading used to exercise the date filter on concrete
input. -/
def sampleNow : YMD := ⟨2024, 5, 15⟩

/-- Sample record dated on the sample clock day. -/
def sampleTodayRecord : RExpense := ⟨"Lunch", 12, "Food", some "2024-05-15"⟩

theorem foldl_add_eq {α : Type} (g : α → Rat) (l : List α) (s : Rat) :
    l.foldl (fun t e => t + g e) s = s + (l.map g).sum := by
  induction l generalizing s with
  | nil => simp
  | cons a l ih => simp [ih, add_assoc]

theorem jsOr0_eq_getD (a : Option Rat) : jsOr0 a = a.getD 0 := by
  cases a <;> rfl

theorem digitChar_isDigit (n : Nat) : (digitChar n).isDigit = true := by
  unfold digitChar
  split <;> decide

theorem digitVal_digitChar (n : Nat) (h : n < 10) : digitVal (digitChar n) = n := by
  interval_cases n <;> decide

theorem daysInMonth_le_31 (y m : Nat) : daysInMonth y m ≤ 31 := by
  unfold daysInMonth
  split
  · split <;> omega
  · split <;> omega

theorem parseYMD_formatYMD (x : YMD) (h : ValidYMD x) : parseYMD (formatYMD x) = some x := by
  obtain ⟨hy, hm1, hm2, hd1, hd2⟩ := h
  have hd31 : x.d ≤ 31 := le_trans hd2 (daysInMonth_le_31 x.y x.m)
  have e1 : digitVal (digitChar (x.y / 1000 % 10)) = x.y / 1000 % 10 :=
    digitVal_digitChar _ (Nat.mod_lt _ (by omega))
  have e2 : digitVal (digitChar (x.y / 100 % 10)) = x.y / 100 % 10 :=
    digitVal_digitChar _ (Nat.mod_lt _ (by omega))
  have e3 : digitVal (digitChar (x.y / 10 % 10)) = x.y / 10 % 10 :=
    digitVal_digitChar _ (Nat.mod_lt _ (by omega))
  have e4 : digitVal (digitChar (x.y % 10)) = x.y % 10 :=
    digitVal_digitChar _ (Nat.mod_lt _ (by omega))
  have e5 : digitVal (digitChar (x.m / 10 % 10)) = x.m / 10 % 10 :=
    digitVal_digitChar _ (Nat.mod_lt _ (by omega))
  have e6 : digitVal (digitChar (x.m % 10)) = x.m % 10 :=
    digitVal_digitChar _ (Nat.mod_lt _ (by omega))
  have e7 : digitVal (digitChar (x.d / 10 % 10)) = x.d / 10 % 10 :=
    digitVal_digitChar _ (Nat.mod_lt _ (by omega))
  have e8 : digitVal (digitChar (x.d % 10)) = x.d % 10 :=
    digitVal_digitChar _ (Nat.mod_lt _ (by omega))
  have hdata : (formatYMD x).data =
      [digitChar (x.y / 1000 % 10), digitChar (x.y / 100 % 10), digitChar (x.y / 10 % 10),
       digitChar (x.y % 10), '-', digitChar (x.m / 10 % 10), digitChar (x.m % 10), '-',
       digitChar (x.d / 10 % 10), digitChar (x.d % 10)] := rfl
  show parseYMDList (formatYMD x).data = some x
  rw [hdata]
  simp only [parseYMDList, digitChar_isDigit, e1, e2, e3, e4, e5, e6, e7, e8]
  have hyv : 1000 * (x.y / 1000 % 10) + 100 * (x.y / 100 % 10) + 10 * (x.y / 10 % 10) +
      x.y % 10 = x.y := by omega
  have hmv : 10 * (x.m / 10 % 10) + x.m % 10 = x.m := by omega
  have hdv : 10 * (x.d / 10 % 10) + x.d % 10 = x.d := by omega
  rw [hyv, hmv, hdv]
  simp [hm1, hm2, hd1, hd2]

theorem keyOrder_concat {α κ : Type} [DecidableEq κ] (k : α → κ) (l : List α) (a : α) :
    keyOrder k (l ++ [a]) =
      if k a ∈ keyOrder k l then keyOrder k l else keyOrder k l ++ [k a] := by
  simp [keyOrder, List.foldl_append]

theorem mem_keyOrder {α κ : Type} [DecidableEq κ] (k : α → κ) (l : List α) (c : κ) :
    c ∈ keyOrder k l ↔ ∃ a ∈ l, k a = c := by
  have main : ∀ (t : List α) (init : List κ),
      c ∈ t.foldl (fun ks a => if k a ∈ ks then ks else ks ++ [k a]) init ↔
        c ∈ init ∨ ∃ a ∈ t, k a = c := by
    intro t
    induction t with
    | nil => intro init; simp
    | cons b t ih =>
      intro init
      simp only [List.foldl_cons]
      rw [ih]
      by_cases hb : k b ∈ init
      · simp only [if_pos hb, List.mem_cons]
        aesop
      · simp only [if_neg hb, List.mem_append, List.mem_singleton, List.mem_cons]
        aesop
  exact (main l []).trans (by simp)

theorem keyOrder_nodup {α κ : Type} [DecidableEq κ] (k : α → κ) (l : List α) :
    (keyOrder k l).Nodup := by
  have main : ∀ (t : List α) (init : List κ), init.Nodup →
      (t.foldl (fun ks a => if k a ∈ ks then ks else ks ++ [k a]) init).Nodup := by
    intro t
    induction t with
    | nil => intro init h; simpa
    | cons b t ih =>
      intro init h
      simp only [List.foldl_cons]
      apply ih
      by_cases hb : k b ∈ init
      · simpa [hb]
      · simp [hb, h, List.nodup_append]
  exact main l [] (by simp)

theorem addTo_map {κ : Type} [DecidableEq κ] (keys : List κ) (f : κ → Rat) (key : κ) (val : Rat)
    (hnd : keys.Nodup) :
    addTo (keys.map (fun c => (c, f c))) key val =
      if key ∈ keys then keys.map (fun c => (c, if c = key then f c + val else f c))
      else (keys.map (fun c => (c, f c))) ++ [(key, val)] := by
  induction keys with
  | nil => simp [addTo]
  | cons c ks ih =>
    obtain ⟨hc, hks⟩ := List.nodup_cons.mp hnd
    simp only [List.map_cons, addTo]
    by_cases hck : c = key
    · subst hck
      simp only [if_pos rfl, List.mem_cons, true_or, if_pos]
      congr 1
      refine (List.map_congr_left ?_).symm
      intro x hx
      have hxc : ¬ x = c := fun h => hc (h ▸ hx)
      simp [hxc]
    · rw [if_neg hck, ih hks]
      by_cases hk : key ∈ ks
      · have hmem : key ∈ c :: ks := List.mem_cons_of_mem _ hk
        rw [if_pos hk, if_pos hmem]
        simp [hck]
      · have hmem : key ∉ c :: ks := by
          simp only [List.mem_cons, not_or]
          exact ⟨fun h => hck h.symm, hk⟩
        rw [if_neg hk, if_neg hmem]
        simp

theorem sum_filter_split {α : Type} (v : α → Rat) (p : α → Bool) (l : List α) :
    ((l.filter p).map v).sum + ((l.filter (fun a => !(p a))).map v).sum = (l.map v).sum := by
  induction l with
  | nil => simp
  | cons a t ih =>
    by_cases h : p a <;> simp [List.filter_cons, h, ← ih] <;> ring

theorem fiberSum_concat {α κ : Type} [DecidableEq κ] (k : α → κ) (v : α → Rat) (l : List α)
    (a : α) (c : κ) :
    fiberSum k v (l ++ [a]) c = fiberSum k v l c + if k a = c then v a else 0 := by
  unfold fiberSum
  rw [List.filter_append]
  by_cases h : k a = c
  · simp [h]
  · simp [h]

theorem fiberSum_eq_zero {α κ : Type} [DecidableEq κ] (k : α → κ) (v : α → Rat) (l : List α)
    (c : κ) (h : ∀ a ∈ l, k a ≠ c) :
    fiberSum k v l c = 0 := by
  unfold fiberSum
  have : l.filter (fun a => decide (k a = c)) = [] := by
    rw [List.filter_eq_nil_iff]
    intro a ha
    simpa using h a ha
  simp [this]

theorem sumByKey_eq {α κ : Type} [DecidableEq κ] (k : α → κ) (v : α → Rat) (l : List α) :
    sumByKey k v l = (keyOrder k l).map (fun c => (c, fiberSum k v l c)) := by
  induction l using List.reverseRecOn with
  | nil => rfl
  | append_singleton l a ih =>
    have hstep : sumByKey k v (l ++ [a]) = addTo (sumByKey k v l) (k a) (v a) := by
      simp [sumByKey, List.foldl_append]
    rw [hstep, ih, addTo_map _ _ _ _ (keyOrder_nodup k l), keyOrder_concat]
    by_cases hm : k a ∈ keyOrder k l
    · rw [if_pos hm, if_pos hm]
      refine List.map_congr_left ?_
      intro c hcm
      by_cases hc : c = k a
      · subst hc
        simp [fiberSum_concat]
      · have : ¬ k a = c := fun h => hc h.symm
        simp [fiberSum_concat, hc, this]
    · rw [if_neg hm, if_neg hm, List.map_append]
      congr 1
      · refine List.map_congr_left ?_
        intro c hcm
        have hne : ¬ k a = c := fun h => hm (h ▸ hcm)
        simp [fiberSum_concat, hne]
      · have hz : fiberSum k v l (k a) = 0 := by
          refine fiberSum_eq_zero k v l (k a) ?_
          intro b hb hkb
          exact hm ((mem_keyOrder k l (k a)).mpr ⟨b, hb, hkb⟩)
        simp [fiberSum_concat, hz]

theorem sum_fiberSum {α κ : Type} [DecidableEq κ] (k : α → κ) (v : α → Rat) :
    ∀ (keys : List κ) (l : List α), keys.Nodup → (∀ a ∈ l, k a ∈ keys) →
      (keys.map (fun c => fiberSum k v l c)).sum = (l.map v).sum := by
  intro keys
  induction keys with
  | nil =>
    intro l _ hcov
    have hl : l = [] := by
      cases l with
      | nil => rfl
      | cons a t => exact absurd (hcov a (by simp)) (by simp)
    simp [hl]
  | cons c ks ih =>
    intro l hnd hcov
    obtain ⟨hc, hks⟩ := List.nodup_cons.mp hnd
    simp only [List.map_cons, List.sum_cons]
    have hfib : ∀ x ∈ ks,
        fiberSum k v l x = fiberSum k v (l.filter (fun a => !(decide (k a = c)))) x := by
      intro x hx
      unfold fiberSum
      rw [List.filter_filter]
      have harg : ∀ a ∈ l, (decide (k a = x) && !(decide (k a = c))) = decide (k a = x) := by
        intro a _
        by_cases hax : k a = x
        · have hxc : ¬ x = c := fun hxeq => hc (hxeq ▸ hx)
          simp [hax, hxc]
        · simp [hax]
      rw [List.filter_congr harg]
    have hcov2 : ∀ a ∈ l.filter (fun a => !(decide (k a = c))), k a ∈ ks := by
      intro a ha
      have hal := List.mem_filter.mp ha
      have hkac : ¬ k a = c := by simpa using hal.2
      rcases List.mem_cons.mp (hcov a hal.1) with h | h
      · exact absurd h hkac
      · exact h
    rw [List.map_congr_left hfib, ih _ hks hcov2]
    have := sum_filter_split v (fun a => decide (k a = c)) l
    unfold fiberSum
    linarith [this]

theorem valOf_map {κ : Type} [DecidableEq κ] (keys : List κ) (f : κ → Rat) (c : κ)
    (h : c ∈ keys) :
    valOf (keys.map (fun x => (x, f x))) c = f c := by
  induction keys with
  | nil => simp at h
  | cons b ks ih =>
    by_cases hb : b = c
    · subst hb
      simp [valOf, List.find?]
    · have hc : c ∈ ks := by
        rcases List.mem_cons.mp h with h1 | h1
        · exact absurd h1.symm hb
        · exact h1
      have : valOf ((b :: ks).map (fun x => (x, f x))) c = valOf (ks.map (fun x => (x, f x))) c := by
        simp [valOf, List.find?, hb]
      rw [this, ih hc]

theorem sumByKey_snd_sum {α κ : Type} [DecidableEq κ] (k : α → κ) (v : α → Rat) (l : List α) :
    ((sumByKey k v l).map Prod.snd).sum = (l.map v).sum := by
  rw [sumByKey_eq, List.map_map]
  exact sum_fiberSum k v (keyOrder k l) l (keyOrder_nodup k l)
    (fun a ha => (mem_keyOrder k l (k a)).mpr ⟨a, ha, rfl⟩)

theorem totalAmount_eq (rs : List RExpense) :
    totalAmount rs = (rs.map (fun e => e.amount)).sum := by
  have h := foldl_add_eq (fun e : RExpense => e.amount) rs 0
  simpa [totalAmount] using h

theorem natDigits_digits (n : Nat) : ∀ c ∈ natDigits n, c.isDigit = true := by
  induction n using Nat.strong_induction_on with
  | _ n ih =>
    by_cases h : n < 10
    · rw [natDigits, dif_pos h]
      intro c hc
      simp only [List.mem_singleton] at hc
      subst hc
      exact digitChar_isDigit n
    · rw [natDigits, dif_neg h]
      intro c hc
      rcases List.mem_append.mp hc with h2 | h2
      · exact ih (n / 10) (Nat.div_lt_self (by omega) (by omega)) c h2
      · simp only [List.mem_singleton] at h2
        subst h2
        exact digitChar_isDigit _

theorem dot_not_in_natDigits (n : Nat) : '.' ∉ natDigits n := by
  intro h
  have := natDigits_digits n _ h
  exact absurd this (by decide)

theorem fixed2Digits_eq (r : Rat) :
    fixed2Digits r = natDigits ((⌊r * 100 + 1 / 2⌋).toNat / 100) ++
      '.' :: [digitChar ((⌊r * 100 + 1 / 2⌋).toNat % 100 / 10 % 10),
              digitChar ((⌊r * 100 + 1 / 2⌋).toNat % 100 % 10)] := rfl

theorem toFixed2_shape (q : Rat) :
    ∃ pre a b, (toFixed2 q).data = pre ++ '.' :: [a, b] ∧ a.isDigit = true ∧
      b.isDigit = true ∧ '.' ∉ pre := by
  unfold toFixed2
  by_cases h : q < 0
  · rw [if_pos h]
    refine ⟨'-' :: natDigits ((⌊(-q) * 100 + 1 / 2⌋).toNat / 100),
      digitChar ((⌊(-q) * 100 + 1 / 2⌋).toNat % 100 / 10 % 10),
      digitChar ((⌊(-q) * 100 + 1 / 2⌋).toNat % 100 % 10), ?_,
      digitChar_isDigit _, digitChar_isDigit _, ?_⟩
    · show '-' :: fixed2Digits (-q) = _
      rw [fixed2Digits_eq]
      simp
    · intro hm
      rcases List.mem_cons.mp hm with h2 | h2
      · exact absurd h2 (by decide)
      · exact dot_not_in_natDigits _ h2
  · rw [if_neg h]
    refine ⟨natDigits ((⌊q * 100 + 1 / 2⌋).toNat / 100),
      digitChar ((⌊q * 100 + 1 / 2⌋).toNat % 100 / 10 % 10),
      digitChar ((⌊q * 100 + 1 / 2⌋).toNat % 100 % 10), ?_,
      digitChar_isDigit _, digitChar_isDigit _, dot_not_in_natDigits _⟩
    show fixed2Digits q = _
    rw [fixed2Digits_eq]

theorem topLoop_spec (L : List (String × Rat)) (hpos : ∀ p ∈ L, 0 < p.2) :
    (L = [] ∧ L.foldl (fun acc p => if acc.2 < p.2 then (some p.1, p.2) else acc)
        ((none : Option String), (0 : Rat)) = (none, 0)) ∨
    ∃ i : Fin L.length,
      L.foldl (fun acc p => if acc.2 < p.2 then (some p.1, p.2) else acc)
          ((none : Option String), (0 : Rat)) = (some (L.get i).1, (L.get i).2) ∧
      (∀ j : Fin L.length, (L.get j).2 ≤ (L.get i).2) ∧
      (∀ j : Fin L.length, (j : Nat) < (i : Nat) → (L.get j).2 < (L.get i).2) := by
  induction L using List.reverseRecOn with
  | nil => exact Or.inl ⟨rfl, rfl⟩
  | append_singleton L x ih =>
    have hposL : ∀ p ∈ L, 0 < p.2 := fun p hp => hpos p (List.mem_append_left _ hp)
    have hx : 0 < x.2 := hpos x (List.mem_append_right _ (by simp))
    have hlast : (L ++ [x]).get ⟨L.length, by simp⟩ = x := by
      simp only [List.get_eq_getElem]
      exact List.getElem_concat_length L x L.length rfl (by simp)
    have hleft : ∀ (j : Nat) (hj : j < L.length),
        (L ++ [x]).get ⟨j, by simp; omega⟩ = L.get ⟨j, hj⟩ := by
      intro j hj
      simp only [List.get_eq_getElem]
      exact List.getElem_append_left hj
    have hfold : (L ++ [x]).foldl (fun acc p => if acc.2 < p.2 then (some p.1, p.2) else acc)
        ((none : Option String), (0 : Rat)) =
        (fun acc p => if acc.2 < p.2 then (some p.1, p.2) else acc)
          (L.foldl (fun acc p => if acc.2 < p.2 then (some p.1, p.2) else acc)
            ((none : Option String), (0 : Rat))) x := by
      rw [List.foldl_append]
      rfl
    rcases ih hposL with ⟨hnil, hres⟩ | ⟨i, hres, hmax, hfirst⟩
    · subst hnil
      refine Or.inr ⟨⟨0, by simp⟩, ?_, ?_, ?_⟩
      · rw [hfold, hres]
        simp [hx]
      · intro j
        have hjlt := j.isLt
        simp only [List.nil_append, List.length_singleton] at hjlt
        have hj0 : j = ⟨0, by simp⟩ := Fin.ext (show (j : Nat) = 0 by omega)
        rw [hj0]
      · intro j hj
        simp at hj
    · by_cases hcmp : (L.get i).2 < x.2
      · refine Or.inr ⟨⟨L.length, by simp⟩, ?_, ?_, ?_⟩
        · rw [hfold, hres]
          simp only [if_pos hcmp]
          rw [hlast]
        · intro j
          rw [hlast]
          rcases Nat.lt_or_ge (j : Nat) L.length with hj | hj
          · have := hmax ⟨(j : Nat), hj⟩
            have hget : (L ++ [x]).get j = L.get ⟨(j : Nat), hj⟩ := by
              have := hleft (j : Nat) hj
              simpa [Fin.ext_iff] using this
            rw [hget]
            exact le_of_lt (lt_of_le_of_lt this hcmp)
          · have hj2 : (j : Nat) = L.length := by
              have := j.isLt
              simp at this
              omega
            have : j = ⟨L.length, by simp⟩ := Fin.ext hj2
            rw [this, hlast]
        · intro j hj
          rw [hlast]
          have hjL : (j : Nat) < L.length := by
            simp at hj
            omega
          have hget : (L ++ [x]).get j = L.get ⟨(j : Nat), hjL⟩ := by
            have := hleft (j : Nat) hjL
            simpa [Fin.ext_iff] using this
          rw [hget]
          exact lt_of_le_of_lt (hmax ⟨(j : Nat), hjL⟩) hcmp
      · refine Or.inr ⟨⟨(i : Nat), by simp; omega⟩, ?_, ?_, ?_⟩
        · rw [hfold, hres]
          simp only [if_neg hcmp]
          have hget : (L ++ [x]).get ⟨(i : Nat), by simp; omega⟩ = L.get i := by
            have := hleft (i : Nat) i.isLt
            simpa [Fin.ext_iff] using this
          rw [hget]
        · intro j
          have hget : (L ++ [x]).get ⟨(i : Nat), by simp; omega⟩ = L.get i := by
            have := hleft (i : Nat) i.isLt
            simpa [Fin.ext_iff] using this
          rw [hget]
          rcases Nat.lt_or_ge (j : Nat) L.length with hj | hj
          · have hgj : (L ++ [x]).get j = L.get ⟨(j : Nat), hj⟩ := by
              have := hleft (j : Nat) hj
              simpa [Fin.ext_iff] using this
            rw [hgj]
            exact hmax ⟨(j : Nat), hj⟩
          · have hj2 : (j : Nat) = L.length := by
              have := j.isLt
              simp at this
              omega
            have : j = ⟨L.length, by simp⟩ := Fin.ext hj2
            rw [this, hlast]
            exact le_of_not_lt hcmp
        · intro j hj
          have hget : (L ++ [x]).get ⟨(i : Nat), by simp; omega⟩ = L.get i := by
            have := hleft (i : Nat) i.isLt
            simpa [Fin.ext_iff] using this
          rw [hget]
          have hjL : (j : Nat) < L.length := by
            have := i.isLt
            simp at hj
            omega
          have hgj : (L ++ [x]).get j = L.get ⟨(j : Nat), hjL⟩ := by
            have := hleft (j : Nat) hjL
            simpa [Fin.ext_iff] using this
          rw [hgj]
          exact hfirst ⟨(j : Nat), hjL⟩ (by simpa using hj)

theorem getTotalExpenses_eq (rs : List JsExpense) :
    getTotalExpenses (some rs) = (rs.map (fun e => jsOr0 e.amount)).sum := by
  have h := foldl_add_eq (fun e : JsExpense => jsOr0 e.amount) rs 0
  simpa [getTotalExpenses] using h

theorem getTotalByCategory_eq (rs : List JsExpense) (c : Option String) :
    getTotalByCategory (some rs) c =
      fiberSum (fun e => e.category) (fun e => jsOr0 e.amount) rs c := by
  have h := foldl_add_eq (fun e : JsExpense => jsOr0 e.amount)
    (rs.filter (fun e => decide (e.category = c))) 0
  simpa [getTotalByCategory, fiberSum] using h

theorem getTotalByMonth_eq (rs : List JsExpense) (m : String) :
    getTotalByMonth (some rs) m =
      ((rs.filter (fun e => jsTruthyStr e.date && jsStartsWith (e.date.getD "") m)).map
        (fun e => jsOr0 e.amount)).sum := by
  have h := foldl_add_eq (fun e : JsExpense => jsOr0 e.amount)
    (rs.filter (fun e => jsTruthyStr e.date && jsStartsWith (e.date.getD "") m)) 0
  simpa [getTotalByMonth] using h

theorem sum_map_mul_const {α : Type} (f : α → Rat) (r : Rat) (l : List α) :
    (l.map (fun x => f x * r)).sum = (l.map f).sum * r := by
  induction l with
  | nil => simp
  | cons a t ih =>
    simp only [List.map_cons, List.sum_cons, ih]
    ring

theorem keyOrder_map {α β κ : Type} [DecidableEq κ] (k : β → κ) (g : α → β) (l : List α) :
    keyOrder k (l.map g) = keyOrder (fun a => k (g a)) l := by
  simp [keyOrder, List.foldl_map]

theorem stringMk_eq_iff (a : List Char) (b : String) : String.mk a = b ↔ a = b.data := by
  constructor
  · intro h
    rw [← h]
  · intro h
    cases b
    rw [h]

theorem fiberSum_cons {α κ : Type} [DecidableEq κ] (k : α → κ) (v : α → Rat) (a : α)
    (l : List α) (c : κ) :
    fiberSum k v (a :: l) c = (if k a = c then v a else 0) + fiberSum k v l c := by
  unfold fiberSum
  by_cases h : k a = c <;> simp [List.filter_cons, h]

theorem monthFiber_eq (rs : List RExpense) (c : Nat × Nat) :
    fiberSum Prod.fst Prod.snd (monthEntries rs) c =
      ((rs.filter (fun e => decide (monthOf e = some c))).map (fun e => e.amount)).sum := by
  induction rs with
  | nil => rfl
  | cons e t ih =>
    cases hm : monthOf e with
    | none =>
      have hent : monthEntries (e :: t) = monthEntries t := by
        simp [monthEntries, List.filterMap_cons, hm]
      have hflt : (e :: t).filter (fun e => decide (monthOf e = some c)) =
          t.filter (fun e => decide (monthOf e = some c)) := by
        simp [List.filter_cons, hm]
      rw [hent, hflt, ih]
    | some ym =>
      have hent : monthEntries (e :: t) = (ym, e.amount) :: monthEntries t := by
        simp [monthEntries, List.filterMap_cons, hm]
      rw [hent, fiberSum_cons]
      by_cases hc : ym = c
      · subst hc
        simp [List.filter_cons, hm, ih]
      · have : ¬ monthOf e = some c := by simp [hm, hc]
        simp [List.filter_cons, hm, hc, this, ih]

theorem mem_monthEntries_iff (rs : List RExpense) (c : Nat × Nat) :
    (∃ p ∈ monthEntries rs, p.1 = c) ↔ ∃ e ∈ rs, monthOf e = some c := by
  constructor
  · rintro ⟨p, hp, rfl⟩
    obtain ⟨e, he, hfe⟩ := List.mem_filterMap.mp hp
    cases hm : monthOf e with
    | none => rw [hm] at hfe; simp at hfe
    | some ym =>
      rw [hm] at hfe
      have hp2 : p = (ym, e.amount) := by simpa using hfe.symm
      refine ⟨e, he, ?_⟩
      rw [hm, hp2]
  · rintro ⟨e, he, hm⟩
    refine ⟨(c, e.amount), ?_, rfl⟩
    exact List.mem_filterMap.mpr ⟨e, he, by rw [hm]; rfl⟩

instance : IsTotal (Nat × Nat) ymLe := by
  constructor
  intro a b
  unfold ymLe
  omega

instance : IsTrans (Nat × Nat) ymLe := by
  constructor
  intro a b c
  unfold ymLe
  omega

/-- C1: getTotalExpenses returns 0 for a null or other non-array input,
0 for the empty list, and otherwise the sum of the amount fields with a
missing amount counted as 0; the embedding is a total function, so no
input throws. -/
theorem getTotalExpenses_spec :
    getTotalExpenses none = 0 ∧ getTotalExpenses (some []) = 0 ∧
      ∀ rs : List JsExpense,
        getTotalExpenses (some rs) = (rs.map (fun e => e.amount.getD 0)).sum := by
  refine ⟨rfl, rfl, fun rs => ?_⟩
  rw [getTotalExpenses_eq]
  simp [jsOr0_eq_getD]

/-- C10: each list-consuming helper returns its neutral default on a
non-array input: getTotalByCategory and getTotalByMonth return 0, and
sortExpensesByDate and getExpensesForLastDays return the empty list. -/
theorem listHelpers_nonArray_neutral :
    (∀ c, getTotalByCategory none c = 0) ∧ (∀ m, getTotalByMonth none m = 0) ∧
      sortExpensesByDate none = [] ∧ ∀ now days, getExpensesForLastDays now none days = [] :=
  ⟨fun _ => rfl, fun _ => rfl, rfl, fun _ _ => rfl⟩

/-- C3: validateExpense rejects a missing, empty or whitespace-only
title with the title-mentioning message, rejects a non-number or
non-positive amount behind a good title with the amount-mentioning
message, and accepts a non-empty trimmed title with a strictly positive
numeric amount. -/
theorem validateExpense_spec (e : JsExpense) :
    ((e.title = none ∨ ∃ t, e.title = some t ∧ t.trim = "") →
      validateExpense e = ⟨false, some "Title is required"⟩) ∧
    ((∃ t, e.title = some t ∧ t.trim ≠ "") →
      (e.amount = none ∨ ∃ a, e.amount = some a ∧ a ≤ 0) →
      validateExpense e = ⟨false, some "Amount must be positive"⟩) ∧
    ((∃ t, e.title = some t ∧ t.trim ≠ "") → (∃ a, e.amount = some a ∧ 0 < a) →
      validateExpense e = ⟨true, none⟩) := by
  refine ⟨?_, ?_, ?_⟩
  · rintro (h | ⟨t, ht, htr⟩)
    · simp [validateExpense, h]
    · simp [validateExpense, ht, htr]
  · rintro ⟨t, ht, htr⟩ (h | ⟨a, ha, hle⟩)
    · simp [validateExpense, ht, htr, h]
    · simp [validateExpense, ht, htr, ha, hle]
  · rintro ⟨t, ht, htr⟩ ⟨a, ha, hpos⟩
    have hnle : ¬ a ≤ 0 := not_le.mpr hpos
    simp [validateExpense, ht, htr, ha, hnle]

/-- C4: in the generatePDF category breakdown each percentage is the
guarded expression 100 times the category amount over the total, every
percentage is 0 when the total is 0 (no division fault is possible), and
when the total is positive the percentages sum to exactly 100. -/
theorem generatePDF_percentages_spec (rs : List RExpense) :
    (∀ p ∈ generatePDFCategoryBreakdown rs,
      p.2.2 = if 0 < totalAmount rs then 100 * p.2.1 / totalAmount rs else 0) ∧
    (totalAmount rs = 0 → ∀ p ∈ generatePDFCategoryBreakdown rs, p.2.2 = 0) ∧
    (0 < totalAmount rs →
      ((generatePDFCategoryBreakdown rs).map (fun p => p.2.2)).sum = 100) := by
  refine ⟨?_, ?_, ?_⟩
  · intro p hp
    obtain ⟨q, hq, rfl⟩ := List.mem_map.mp hp
    by_cases hT : 0 < totalAmount rs
    · simp only [if_pos hT]
      ring
    · simp only [if_neg hT]
  · intro hT0 p hp
    obtain ⟨q, hq, rfl⟩ := List.mem_map.mp hp
    have : ¬ 0 < totalAmount rs := by rw [hT0]; exact lt_irrefl 0
    simp [this]
  · intro hT
    have hTne : totalAmount rs ≠ 0 := ne_of_gt hT
    unfold generatePDFCategoryBreakdown
    rw [List.map_map]
    have hfun : ((fun p : String × Rat × Rat => p.2.2) ∘
        fun p : String × Rat => (p.1, p.2, if 0 < totalAmount rs then
          p.2 / totalAmount rs * 100 else 0)) =
        fun p : String × Rat => p.2 * (100 / totalAmount rs) := by
      funext p
      simp only [Function.comp, if_pos hT]
      ring
    rw [hfun, sum_map_mul_const (fun p : String × Rat => p.2) (100 / totalAmount rs)]
    have hsnd : ((getCategoryData rs).map (fun p : String × Rat => p.2)).sum = totalAmount rs := by
      have h := sumByKey_snd_sum (fun e : RExpense => e.category) (fun e : RExpense => e.amount) rs
      rw [totalAmount_eq]
      exact h
    rw [hsnd]
    field_simp

/-- C9 counterexample: with one custom category named Food, the
dashboard merged list shows Food twice, so the merged lists do not all
suppress a custom category colliding with a default name. -/
theorem mergedCategories_cex :
    ((dashboardAllCategories [⟨"c1", "Food"⟩]).map Category.name) =
        ["Food", "Transport", "Entertainment", "Utilities", "Rent", "Other", "Food"] ∧
      ¬ ((dashboardAllCategories [⟨"c1", "Food"⟩]).map Category.name).Nodup := by
  constructor
  · rfl
  · decide

/-- C9 (amended): only the expense-form merge suppresses a custom
category whose name equals a default name, keeping exactly one entry per
default name; the dashboard-overview and categories-page merges
concatenate, so each default name occurs once for the default plus once
per colliding custom category. -/
theorem mergedCategories_spec (cs : List Category) :
    (∀ n ∈ defaultCategories.map Category.name,
      ((expenseFormAllCategories cs).map Category.name).count n = 1) ∧
    (∀ n ∈ defaultCategories.map Category.name,
      ((dashboardAllCategories cs).map Category.name).count n =
        1 + (cs.map Category.name).count n) ∧
    (∀ n ∈ defaultCategories.map Category.name,
      ((categoriesPageAllCategories cs).map Category.name).count n =
        1 + (cs.map Category.name).count n) := by
  have hdef : ∀ n ∈ defaultCategories.map Category.name,
      (defaultCategories.map Category.name).count n = 1 := by
    intro n hn
    fin_cases hn <;> decide
  refine ⟨?_, ?_, ?_⟩
  · intro n hn
    unfold expenseFormAllCategories
    rw [List.map_append, List.count_append, hdef n hn]
    have hzero : ((cs.filter (fun cat =>
        !(defaultCategories.any (fun dc => decide (dc.name = cat.name))))).map
          Category.name).count n = 0 := by
      rw [List.count_eq_zero]
      intro hmem
      obtain ⟨cat, hcat, hname⟩ := List.mem_map.mp hmem
      have hflt := (List.mem_filter.mp hcat).2
      simp only [Bool.not_eq_eq_eq_not, Bool.not_true, List.any_eq_false,
        decide_eq_false_iff_not] at hflt
      obtain ⟨dc, hdc, hdcn⟩ := List.mem_map.mp hn
      exact hflt dc hdc (by rw [hdcn, hname]; exact decide_eq_true rfl)
    rw [hzero]
  · intro n hn
    unfold dashboardAllCategories
    rw [List.map_append, List.count_append, hdef n hn]
  · intro n hn
    unfold categoriesPageAllCategories
    rw [List.map_append, List.count_append, hdef n hn]

/-- C2 counterexample: a record carrying an amount and no date
contributes to the total but to no month, so summing getTotalByMonth
over the month prefixes present does not reproduce getTotalExpenses for
every record list. -/
theorem partition_month_cex :
    ((monthsPresent [{ amount := some 5 : JsExpense }]).map
        (fun m => getTotalByMonth (some [{ amount := some 5 : JsExpense }]) m)).sum ≠
      getTotalExpenses (some [{ amount := some 5 : JsExpense }]) := by
  have h1 : monthsPresent [{ amount := some 5 : JsExpense }] = [] := rfl
  have h2 : getTotalExpenses (some [{ amount := some 5 : JsExpense }]) = 5 := by
    rw [getTotalExpenses_eq]
    simp [jsOr0]
  rw [h1, h2]
  simp only [List.map_nil, List.sum_nil]
  norm_num

/-- C2 (amended): summing getTotalByCategory over the distinct category
values present always reproduces getTotalExpenses; summing
getTotalByMonth over the distinct month prefixes present reproduces it
provided every record carries a date string of at least seven
characters (the yyyy-MM part), a record with a missing or short date
otherwise contributing to the total but to no month. -/
theorem partition_laws (rs : List JsExpense) :
    ((catsPresent rs).map (fun c => getTotalByCategory (some rs) c)).sum =
        getTotalExpenses (some rs) ∧
    ((∀ e ∈ rs, 7 ≤ ((e.date.map (fun s => s.data.length)).getD 0)) →
      ((monthsPresent rs).map (fun m => getTotalByMonth (some rs) m)).sum =
        getTotalExpenses (some rs)) := by
  constructor
  · have h1 : (catsPresent rs).map (fun c => getTotalByCategory (some rs) c) =
        (catsPresent rs).map (fun c =>
          fiberSum (fun e => e.category) (fun e => jsOr0 e.amount) rs c) :=
      List.map_congr_left (fun c _ => getTotalByCategory_eq rs c)
    rw [h1, getTotalExpenses_eq]
    exact sum_fiberSum _ _ _ rs (keyOrder_nodup _ _)
      (fun a ha => (mem_keyOrder _ _ _).mpr ⟨a, ha, rfl⟩)
  · intro hd
    have hdate : ∀ e ∈ rs, ∃ s, e.date = some s ∧ 7 ≤ s.data.length := by
      intro e he
      cases hde : e.date with
      | none =>
        exfalso
        have := hd e he
        rw [hde] at this
        simp at this
      | some s =>
        refine ⟨s, rfl, ?_⟩
        have := hd e he
        rw [hde] at this
        simpa using this
    have hfm : ∀ (l : List JsExpense), (∀ e ∈ l, ∃ s, e.date = some s ∧ 7 ≤ s.data.length) →
        l.filterMap (fun e => e.date) = l.map (fun e => e.date.getD "") := by
      intro l hl
      induction l with
      | nil => rfl
      | cons e t ih =>
        obtain ⟨s, hs, _⟩ := hl e (by simp)
        rw [List.filterMap_cons, List.map_cons, hs]
        simp only [Option.getD_some]
        rw [ih (fun x hx => hl x (List.mem_cons_of_mem _ hx))]
    have hkeys : monthsPresent rs = keyOrder (fun e : JsExpense => monthKey (e.date.getD "")) rs := by
      unfold monthsPresent
      rw [hfm rs hdate, keyOrder_map]
    have hmlen : ∀ m ∈ monthsPresent rs, m.data.length = 7 := by
      intro m hm
      rw [hkeys] at hm
      obtain ⟨e, he, hkm⟩ := (mem_keyOrder _ _ _).mp hm
      obtain ⟨s, hs, hlen⟩ := hdate e he
      rw [hs] at hkm
      simp only [Option.getD_some] at hkm
      rw [← hkm]
      show (String.mk (s.data.take 7)).data.length = 7
      simp only [List.length_take]
      omega
    have hpt : ∀ m ∈ monthsPresent rs,
        getTotalByMonth (some rs) m =
          fiberSum (fun e : JsExpense => monthKey (e.date.getD ""))
            (fun e => jsOr0 e.amount) rs m := by
      intro m hm
      rw [getTotalByMonth_eq]
      unfold fiberSum
      congr 1
      congr 1
      apply List.filter_congr
      intro e he
      show (jsTruthyStr e.date && jsStartsWith (e.date.getD "") m) =
        decide (monthKey (e.date.getD "") = m)
      obtain ⟨s, hs, hlen⟩ := hdate e he
      rw [hs]
      simp only [Option.getD_some]
      have h7 := hmlen m hm
      have hsne : (s == "") = false := by
        have hne : s ≠ "" := by
          intro h0
          rw [h0] at hlen
          simp at hlen
        exact beq_eq_false_iff_ne.mpr hne
      simp only [jsTruthyStr, hsne, Bool.not_false, Bool.true_and, jsStartsWith, h7]
      exact decide_eq_decide.mpr (stringMk_eq_iff _ _).symm
    have h2 : (monthsPresent rs).map (fun m => getTotalByMonth (some rs) m) =
        (monthsPresent rs).map (fun m =>
          fiberSum (fun e : JsExpense => monthKey (e.date.getD ""))
            (fun e => jsOr0 e.amount) rs m) :=
      List.map_congr_left hpt
    rw [h2, getTotalExpenses_eq, hkeys]
    exact sum_fiberSum _ _ _ rs (keyOrder_nodup _ _)
      (fun a ha => (mem_keyOrder _ _ _).mpr ⟨a, ha, rfl⟩)

/-- C7: for every range other than all, filterExpenses keeps no record
whose date is missing or unparsable: every surviving record has a date
the parser accepts; the filter is a total function, so nothing throws. -/
theorem filterExpenses_excludes_undated (now : YMD) (r : DateFilter) (cs ce : String)
    (rs : List RExpense) (hnow : ValidYMD now) (hr : r ≠ DateFilter.all) :
    ∀ e ∈ filterExpenses now r cs ce rs, (parseDate e.date).isSome = true := by
  intro e he
  unfold filterExpenses at he
  rw [List.mem_insertionSort] at he
  cases r with
  | all => exact absurd rfl hr
  | today =>
    simp only [filterPick] at he
    have hp := (List.mem_filter.mp he).2
    have hdate : e.date = some (formatYMD now) := by simpa using hp
    rw [hdate]
    show (parseYMD (formatYMD now)).isSome = true
    rw [parseYMD_formatYMD now hnow]
    rfl
  | thisMonth =>
    simp only [filterPick] at he
    have hp := (List.mem_filter.mp he).2
    cases h : parseDate e.date with
    | none => rw [h] at hp; simp [inYMDRange] at hp
    | some x => rfl
  | lastMonth =>
    simp only [filterPick] at he
    have hp := (List.mem_filter.mp he).2
    cases h : parseDate e.date with
    | none => rw [h] at hp; simp [inYMDRange] at hp
    | some x => rfl
  | thisYear =>
    simp only [filterPick] at he
    have hp := (List.mem_filter.mp he).2
    cases h : parseDate e.date with
    | none => rw [h] at hp; simp [inYMDRange] at hp
    | some x => rfl
  | lastYear =>
    simp only [filterPick] at he
    have hp := (List.mem_filter.mp he).2
    cases h : parseDate e.date with
    | none => rw [h] at hp; simp [inYMDRange] at hp
    | some x => rfl
  | custom =>
    simp only [filterPick] at he
    have hp := (List.mem_filter.mp he).2
    cases h : parseDate e.date with
    | none =>
      rw [h] at hp
      cases h2 : parseYMD cs <;> cases h3 : parseYMD ce <;> rw [h2, h3] at hp <;> simp at hp
    | some x => rfl

/-- C8: exportToCSV produces one row per record in order, each row
holding the reformatted date, the category, the title wrapped in double
quotes (hence quoted whenever it contains the comma delimiter), and the
amount rendered with exactly two digits after the decimal point. -/
theorem exportToCSV_spec (rs : List RExpense)
    (h : ∀ e ∈ rs, (parseDate e.date).isSome = true) :
    (exportToCSV rs).length = rs.length ∧
    ∀ i, (hi : i < rs.length) →
      (∃ x, parseDate (rs.get ⟨i, hi⟩).date = some x ∧
        (exportToCSV rs).getD i [] =
          [formatYMD x, (rs.get ⟨i, hi⟩).category,
           String.mk ('"' :: (rs.get ⟨i, hi⟩).title.data ++ ['"']),
           toFixed2 (rs.get ⟨i, hi⟩).amount]) ∧
      (∃ pre a b, (toFixed2 (rs.get ⟨i, hi⟩).amount).data = pre ++ '.' :: [a, b] ∧
        a.isDigit = true ∧ b.isDigit = true ∧ '.' ∉ pre) ∧
      (',' ∈ (rs.get ⟨i, hi⟩).title.data →
        ∃ mid, (String.mk ('"' :: (rs.get ⟨i, hi⟩).title.data ++ ['"'])).data =
          '"' :: mid ++ ['"']) := by
  constructor
  · simp [exportToCSV]
  · intro i hi
    have hmem : rs.get ⟨i, hi⟩ ∈ rs := List.get_mem rs i hi
    have hsome := h _ hmem
    obtain ⟨x, hx⟩ := Option.isSome_iff_exists.mp hsome
    refine ⟨⟨x, hx, ?_⟩, toFixed2_shape _, fun _ => ⟨(rs.get ⟨i, hi⟩).title.data, rfl⟩⟩
    have hlen2 : i < (exportToCSV rs).length := by simpa [exportToCSV] using hi
    rw [List.getD_eq_getElem _ _ hlen2]
    show (rs.map csvFields)[i] = _
    rw [List.getElem_map]
    unfold csvFields
    rw [List.get_eq_getElem] at hx ⊢
    rw [hx]
    rfl

/-- C5: under the data-model invariant of strictly positive amounts,
getTopCategory answers the null category exactly for the empty
collection, and otherwise the category at some position of the
first-encounter category order together with its summed amount, that sum
being greatest among all categories and strictly greater than the sum of
every category encountered earlier (ties fall to the first encountered). -/
theorem getTopCategory_spec (rs : List RExpense) (hpos : ∀ e ∈ rs, 0 < e.amount) :
    ((getTopCategory rs).1 = none ↔ rs = []) ∧
    (rs ≠ [] → ∃ i : Fin (catsInOrder rs).length,
      getTopCategory rs =
        (some ((catsInOrder rs).get i), catFiber rs ((catsInOrder rs).get i)) ∧
      (∀ c ∈ catsInOrder rs, catFiber rs c ≤ catFiber rs ((catsInOrder rs).get i)) ∧
      (∀ j : Fin (catsInOrder rs).length, (j : Nat) < (i : Nat) →
        catFiber rs ((catsInOrder rs).get j) < catFiber rs ((catsInOrder rs).get i))) := by
  have hCD : getCategoryData rs = (catsInOrder rs).map (fun c => (c, catFiber rs c)) := by
    show sumByKey (fun e : RExpense => e.category) (fun e : RExpense => e.amount) rs =
      (keyOrder (fun e : RExpense => e.category) rs).map
        (fun c => (c, fiberSum (fun e : RExpense => e.category)
          (fun e : RExpense => e.amount) rs c))
    exact sumByKey_eq _ _ _
  have hpos2 : ∀ p ∈ (catsInOrder rs).map (fun c => (c, catFiber rs c)), 0 < p.2 := by
    intro p hp
    obtain ⟨c, hc, rfl⟩ := List.mem_map.mp hp
    obtain ⟨a, ha, hk⟩ := (mem_keyOrder (fun e : RExpense => e.category) rs c).mp hc
    have hmf : a ∈ rs.filter (fun e => decide (e.category = c)) :=
      List.mem_filter.mpr ⟨ha, by simp [hk]⟩
    have hne : (rs.filter (fun e => decide (e.category = c))).map (fun e => e.amount) ≠ [] := by
      intro h0
      have hmm := List.mem_map_of_mem (fun e : RExpense => e.amount) hmf
      rw [h0] at hmm
      simp at hmm
    refine List.sum_pos _ ?_ hne
    intro q hq
    obtain ⟨b, hb, rfl⟩ := List.mem_map.mp hq
    exact hpos b (List.mem_filter.mp hb).1
  have htopeq : getTopCategory rs =
      ((catsInOrder rs).map (fun c => (c, catFiber rs c))).foldl
        (fun acc p => if acc.2 < p.2 then (some p.1, p.2) else acc)
        ((none : Option String), (0 : Rat)) := by
    show (getCategoryData rs).foldl _ _ = _
    rw [hCD]
  rcases topLoop_spec ((catsInOrder rs).map (fun c => (c, catFiber rs c))) hpos2 with
    ⟨hnil, hres⟩ | ⟨i, hres, hmax, hfirst⟩
  · have hcats : catsInOrder rs = [] := List.map_eq_nil_iff.mp hnil
    have hrs : rs = [] := by
      cases rs with
      | nil => rfl
      | cons e t =>
        exfalso
        have hcmem : e.category ∈ catsInOrder (e :: t) :=
          (mem_keyOrder _ _ _).mpr ⟨e, by simp, rfl⟩
        rw [hcats] at hcmem
        simp at hcmem
    have htv : getTopCategory rs = (none, 0) := by rw [htopeq, hres]
    refine ⟨⟨fun _ => hrs, fun _ => by rw [htv]⟩, fun hne => absurd hrs hne⟩
  · have hlen : ((catsInOrder rs).map (fun c => (c, catFiber rs c))).length =
        (catsInOrder rs).length := List.length_map _ _
    have hi2 : (i : Nat) < (catsInOrder rs).length := by
      have := i.isLt
      omega
    have hget : ∀ (j : Fin ((catsInOrder rs).map (fun c => (c, catFiber rs c))).length)
        (hj : (j : Nat) < (catsInOrder rs).length),
        ((catsInOrder rs).map (fun c => (c, catFiber rs c))).get j =
          ((catsInOrder rs).get ⟨(j : Nat), hj⟩,
            catFiber rs ((catsInOrder rs).get ⟨(j : Nat), hj⟩)) := by
      intro j hj
      simp [List.get_eq_getElem, List.getElem_map]
    have hresv : getTopCategory rs =
        (some ((catsInOrder rs).get ⟨(i : Nat), hi2⟩),
          catFiber rs ((catsInOrder rs).get ⟨(i : Nat), hi2⟩)) := by
      rw [htopeq, hres, hget i hi2]
    have hnn : (getTopCategory rs).1 ≠ none := by
      rw [hresv]
      simp
    constructor
    · constructor
      · intro h0
        exact absurd h0 hnn
      · intro hrs0
        exfalso
        have hl0 : (catsInOrder rs).length = 0 := by
          rw [hrs0]
          rfl
        omega
    · intro _
      refine ⟨⟨(i : Nat), hi2⟩, hresv, ?_, ?_⟩
      · intro c hc
        obtain ⟨j2, hj2⟩ := List.get_of_mem hc
        have hjlt : (j2 : Nat) < ((catsInOrder rs).map (fun c => (c, catFiber rs c))).length := by
          have := j2.isLt
          omega
        have hj := hmax ⟨(j2 : Nat), hjlt⟩
        rw [hget ⟨(j2 : Nat), hjlt⟩ j2.isLt, hget i hi2] at hj
        simp only [Fin.eta] at hj
        rw [← hj2]
        exact hj
      · intro j hj
        have hjlt : (j : Nat) < ((catsInOrder rs).map (fun c => (c, catFiber rs c))).length := by
          have := j.isLt
          omega
        have hlt := hfirst ⟨(j : Nat), hjlt⟩ (by simpa using hj)
        rw [hget ⟨(j : Nat), hjlt⟩ j.isLt, hget i hi2] at hlt
        simp only [Fin.eta] at hlt
        exact hlt

/-- C6: the monthly trend of getMonthlyData has distinct labels, one per
month occurring among the records with a parsable date, listed in
strictly ascending calendar order, and the data series matches the
labels index-for-index with each value the sum of the amounts of that
month. -/
theorem getMonthlyData_spec (rs : List RExpense) :
    (getMonthlyData rs).1.Nodup ∧
    List.Pairwise (fun a b : Nat × Nat => a.1 < b.1 ∨ (a.1 = b.1 ∧ a.2 < b.2))
      (getMonthlyData rs).1 ∧
    (∀ c, c ∈ (getMonthlyData rs).1 ↔ ∃ e ∈ rs, monthOf e = some c) ∧
    (getMonthlyData rs).2.length = (getMonthlyData rs).1.length ∧
    (∀ i, i < (getMonthlyData rs).1.length →
      (getMonthlyData rs).2.getD i 0 =
        ((rs.filter (fun e =>
            decide (monthOf e = some ((getMonthlyData rs).1.getD i (0, 0))))).map
          (fun e => e.amount)).sum) := by
  have hmm : sumByKey Prod.fst Prod.snd (monthEntries rs) =
      (keyOrder Prod.fst (monthEntries rs)).map
        (fun c => (c, fiberSum Prod.fst Prod.snd (monthEntries rs) c)) :=
    sumByKey_eq _ _ _
  have hkeys : (sumByKey Prod.fst Prod.snd (monthEntries rs)).map Prod.fst =
      keyOrder Prod.fst (monthEntries rs) := by
    rw [hmm, List.map_map]
    have hcomp : (Prod.fst ∘ fun c : Nat × Nat =>
        (c, fiberSum Prod.fst Prod.snd (monthEntries rs) c)) = id := rfl
    rw [hcomp, List.map_id]
  have h1 : (getMonthlyData rs).1 = List.insertionSort ymLe
      ((sumByKey Prod.fst Prod.snd (monthEntries rs)).map Prod.fst) := rfl
  have h2 : (getMonthlyData rs).2 = (getMonthlyData rs).1.map
      (fun c => valOf (sumByKey Prod.fst Prod.snd (monthEntries rs)) c) := rfl
  have hknd : ((sumByKey Prod.fst Prod.snd (monthEntries rs)).map Prod.fst).Nodup := by
    rw [hkeys]
    exact keyOrder_nodup _ _
  have hperm : List.Perm
      (List.insertionSort ymLe ((sumByKey Prod.fst Prod.snd (monthEntries rs)).map Prod.fst))
      ((sumByKey Prod.fst Prod.snd (monthEntries rs)).map Prod.fst) :=
    List.perm_insertionSort _ _
  have hnd : (getMonthlyData rs).1.Nodup := by
    rw [h1]
    exact hperm.symm.nodup hknd
  have hsorted : List.Pairwise ymLe (getMonthlyData rs).1 := by
    rw [h1]
    exact List.sorted_insertionSort ymLe _
  have hmem : ∀ c, c ∈ (getMonthlyData rs).1 ↔ ∃ e ∈ rs, monthOf e = some c := by
    intro c
    rw [h1, List.mem_insertionSort, hkeys, mem_keyOrder]
    exact mem_monthEntries_iff rs c
  refine ⟨hnd, ?_, hmem, ?_, ?_⟩
  · have hand := List.Pairwise.and hsorted hnd
    refine hand.imp ?_
    intro a b hab
    obtain ⟨hle, hne⟩ := hab
    rcases a with ⟨a1, a2⟩
    rcases b with ⟨b1, b2⟩
    unfold ymLe at hle
    simp only [ne_eq, Prod.mk.injEq] at hne
    omega
  · rw [h2, List.length_map]
  · intro i hi
    have hmap : ∀ (l : List (Nat × Nat)) (f : (Nat × Nat) → Rat), i < l.length →
        (l.map f).getD i 0 = f (l.getD i (0, 0)) := by
      intro l f hl
      rw [List.getD_eq_getElem _ _ (by simpa using hl), List.getD_eq_getElem _ _ hl,
        List.getElem_map]
    rw [h2, hmap _ _ hi]
    have hlm : (getMonthlyData rs).1.getD i (0, 0) ∈ (getMonthlyData rs).1 := by
      rw [List.getD_eq_getElem _ _ hi]
      exact List.getElem_mem hi
    have hlk : (getMonthlyData rs).1.getD i (0, 0) ∈ keyOrder Prod.fst (monthEntries rs) := by
      rw [h1, hkeys] at hlm ⊢
      rw [List.mem_insertionSort] at hlm
      exact hlm
    have hvm : valOf (sumByKey Prod.fst Prod.snd (monthEntries rs))
        ((getMonthlyData rs).1.getD i (0, 0)) =
        fiberSum Prod.fst Prod.snd (monthEntries rs) ((getMonthlyData rs).1.getD i (0, 0)) := by
      rw [hmm]
      exact valOf_map _ _ _ hlk
    rw [hvm, monthFiber_eq]

/-- Witness for the top-category theorem at a concrete record list with
positive amounts. -/
theorem getTopCategory_spec_witness :
    ((getTopCategory sampleReportRecords).1 = none ↔ sampleReportRecords = []) ∧
    (sampleReportRecords ≠ [] → ∃ i : Fin (catsInOrder sampleReportRecords).length,
      getTopCategory sampleReportRecords =
        (some ((catsInOrder sampleReportRecords).get i),
          catFiber sampleReportRecords ((catsInOrder sampleReportRecords).get i)) ∧
      (∀ c ∈ catsInOrder sampleReportRecords,
        catFiber sampleReportRecords c ≤
          catFiber sampleReportRecords ((catsInOrder sampleReportRecords).get i)) ∧
      (∀ j : Fin (catsInOrder sampleReportRecords).length, (j : Nat) < (i : Nat) →
        catFiber sampleReportRecords ((catsInOrder sampleReportRecords).get j) <
          catFiber sampleReportRecords ((catsInOrder sampleReportRecords).get i))) :=
  getTopCategory_spec sampleReportRecords (by
    intro e he
    simp only [sampleReportRecords, List.mem_cons, List.not_mem_nil, or_false] at he
    rcases he with rfl | rfl <;> norm_num)

/-- Witness for the date-filter exclusion theorem at a concrete clock,
range and record. -/
theorem filterExpenses_excludes_witness :
    (parseDate sampleTodayRecord.date).isSome = true :=
  filterExpenses_excludes_undated sampleNow DateFilter.today "" "" [sampleTodayRecord]
    (by decide) (by decide) sampleTodayRecord (by decide)

/-- Witness for the CSV export theorem at a concrete record list with
parsable dates. -/
theorem exportToCSV_spec_witness :
    (exportToCSV sampleReportRecords).length = sampleReportRecords.length ∧
    ∀ i, (hi : i < sampleReportRecords.length) →
      (∃ x, parseDate (sampleReportRecords.get ⟨i, hi⟩).date = some x ∧
        (exportToCSV sampleReportRecords).getD i [] =
          [formatYMD x, (sampleReportRecords.get ⟨i, hi⟩).category,
           String.mk ('"' :: (sampleReportRecords.get ⟨i, hi⟩).title.data ++ ['"']),
           toFixed2 (sampleReportRecords.get ⟨i, hi⟩).amount]) ∧
      (∃ pre a b,
        (toFixed2 (sampleReportRecords.get ⟨i, hi⟩).amount).data = pre ++ '.' :: [a, b] ∧
        a.isDigit = true ∧ b.isDigit = true ∧ '.' ∉ pre) ∧
      (',' ∈ (sampleReportRecords.get ⟨i, hi⟩).title.data →
        ∃ mid, (String.mk ('"' :: (sampleReportRecords.get ⟨i, hi⟩).title.data ++ ['"'])).data =
          '"' :: mid ++ ['"']) :=
  exportToCSV_spec sampleReportRecords (by decide)
